import Mathlib

/-!
Verification of the AI-Working-Flow repository against its natural-language
specification.  The development shallowly embeds the configuration layer
(`config.py`, `env_config.py`), the Gemini client adapter (`gemini_client.py`)
and the workflow orchestration core described by the specification
(filter engine, termination evaluator, task-graph validation, transcript
export).  Machine strings are Lean `String`s, Python `int` is `Int`,
Python dictionaries are association lists with unique keys, and fallible
operations return `Option` or `Except`.
-/

namespace Config

/-- Workflow configuration dataclass of `config.py` (`WorkflowConfig`). -/
structure WorkflowConfig where
  max_messages : Int
  termination_keywords : List String
  enable_parallel_processing : Bool
  enable_message_filtering : Bool
deriving DecidableEq, Repr

/-- `ProgrammingWorkflowConfig.BASIC_WORKFLOW_CONFIG` from `config.py`. -/
def BASIC_WORKFLOW_CONFIG : WorkflowConfig :=
  { max_messages := 15
    termination_keywords := ["OPTIMIZATION_COMPLETE", "APPROVE"]
    enable_parallel_processing := false
    enable_message_filtering := false }

/-- `ProgrammingWorkflowConfig.ADVANCED_WORKFLOW_CONFIG` from `config.py`. -/
def ADVANCED_WORKFLOW_CONFIG : WorkflowConfig :=
  { max_messages := 25
    termination_keywords := ["WORKFLOW_COMPLETE"]
    enable_parallel_processing := true
    enable_message_filtering := true }

/-- `get_workflow_config` from `config.py`: the advanced configuration for
the string "advanced", the basic configuration for every other argument. -/
def get_workflow_config (workflow_type : String) : WorkflowConfig :=
  if workflow_type = "advanced" then ADVANCED_WORKFLOW_CONFIG
  else BASIC_WORKFLOW_CONFIG

end Config

namespace Gemini

/-- Worker-invocation failure kinds of the specification error taxonomy. -/
inductive WorkerInvocationError where
  | timeout
  | transportFailure
  | emptyResult
deriving DecidableEq, Repr

/-- The fields of the `CreateResult` value built by
`GeminiChatCompletionClient.create` in `gemini_client.py`. -/
structure CreateResult where
  content : String
  finish_reason : String
  cached : Bool
deriving DecidableEq, Repr

/-- Response handling of `GeminiChatCompletionClient.create`
(`gemini_client.py` lines 137-158): a model response whose text is absent
or empty raises (Python `if not response.text`), otherwise a `CreateResult`
carrying the response text is returned. -/
def create (responseText : Option String) : Except WorkerInvocationError CreateResult :=
  match responseText with
  | Option.none => Except.error WorkerInvocationError.emptyResult
  | some t =>
      if t = "" then Except.error WorkerInvocationError.emptyResult
      else Except.ok { content := t, finish_reason := "stop", cached := false }

end Gemini

namespace EnvConfig

/-- The dynamically typed values that `get_env_value` in `env_config.py`
consumes and produces.  A Python float built from a string is represented
by the literal it was parsed from; the code never computes with it. -/
inductive PyVal where
  | none
  | str (s : String)
  | int (n : Int)
  | bool (b : Bool)
  | float (lit : String)
  | list (items : List String)
deriving DecidableEq, Repr

/-- Leading and trailing whitespace removal on character lists
(Python `str.strip()`). -/
def trimChars (cs : List Char) : List Char :=
  ((cs.dropWhile Char.isWhitespace).reverse.dropWhile Char.isWhitespace).reverse

/-- Python `str.strip()` on strings. -/
def pyStrip (s : String) : String :=
  String.mk (trimChars s.data)

/-- Python `str.lower()` on strings. -/
def pyLower (s : String) : String :=
  String.mk (s.data.map Char.toLower)

/-- Split a character list at every occurrence of a separator character
(Python `str.split(sep)`). -/
def splitOnChar (c : Char) : List Char → List (List Char)
  | [] => [[]]
  | x :: rest =>
      match splitOnChar c rest with
      | [] => [[]]
      | h :: t => if x == c then [] :: h :: t else (x :: h) :: t

/-- Numeric value of a list of decimal digit characters. -/
def digitsVal (cs : List Char) : Nat :=
  cs.foldl (fun acc c => acc * 10 + (c.toNat - 48)) 0

/-- A nonempty all-digit character list. -/
def allDigits1 (cs : List Char) : Bool :=
  !cs.isEmpty && cs.all Char.isDigit

/-- Digits-only integer body used by `parsePyInt`. -/
def intOfDigits (cs : List Char) : Option Int :=
  if allDigits1 cs then some (Int.ofNat (digitsVal cs)) else Option.none

/-- Python `int(s)` on decimal literals: surrounding whitespace stripped,
an optional sign followed by one or more digits; anything else fails. -/
def parsePyInt (s : String) : Option Int :=
  match trimChars s.data with
  | '+' :: rest => intOfDigits rest
  | '-' :: rest => (intOfDigits rest).map (fun n => -n)
  | cs => intOfDigits cs

/-- Optional exponent part of a float literal: `e` followed by an
optionally signed nonempty digit string, or nothing. -/
def expPart : List Char → Bool
  | [] => true
  | 'e' :: '+' :: rest => allDigits1 rest
  | 'e' :: '-' :: rest => allDigits1 rest
  | 'e' :: rest => allDigits1 rest
  | _ => false

/-- Unsigned mantissa with optional decimal point, then optional exponent. -/
def mantissaExp (cs : List Char) : Bool :=
  let d1 := cs.takeWhile Char.isDigit
  let r1 := cs.dropWhile Char.isDigit
  match r1 with
  | '.' :: r2 =>
      let d2 := r2.takeWhile Char.isDigit
      let r3 := r2.dropWhile Char.isDigit
      (!d1.isEmpty || !d2.isEmpty) && expPart r3
  | _ => !d1.isEmpty && expPart r1

/-- Signless body of a Python float literal, lower-cased. -/
def floatBody (cs : List Char) : Bool :=
  cs == "inf".data || cs == "infinity".data || cs == "nan".data || mantissaExp cs

/-- Whether Python `float(s)` succeeds: whitespace stripped, case folded,
optional sign, then a numeric mantissa/exponent body or inf/nan. -/
def isPyFloatLit (s : String) : Bool :=
  match (trimChars s.data).map Char.toLower with
  | '+' :: rest => floatBody rest
  | '-' :: rest => floatBody rest
  | cs => floatBody cs

/-- The type-conversion block of `get_env_value` (`env_config.py` lines
80-96), keyed on the runtime type of the default value exactly as the
chain of `isinstance` tests is: bool before int, then float, then list;
a `None` or string default returns the raw string value. -/
def convertEnvValue (default : PyVal) (value : String) : PyVal :=
  match default with
  | PyVal.bool _ => PyVal.bool (["true", "1", "yes", "on"].contains (pyLower value))
  | PyVal.int n =>
      match parsePyInt value with
      | some m => PyVal.int m
      | Option.none => PyVal.int n
  | PyVal.float lit =>
      if isPyFloatLit value then PyVal.float value else PyVal.float lit
  | PyVal.list _ =>
      PyVal.list
        (((splitOnChar ',' value.data).map (fun item => String.mk (trimChars item))).filter
          (fun item => item ≠ ""))
  | PyVal.none => PyVal.str value
  | PyVal.str _ => PyVal.str value

/-- Lookup in a Python dict represented as an association list with
unique keys (`dict.get`). -/
def lookupDict (m : List (String × String)) (k : String) : Option String :=
  (m.find? (fun p => p.1 == k)).map Prod.snd

/-- Python dict assignment `m[k] = v`: overwrite the value at an existing
key in place, otherwise append the new pair. -/
def dictInsert : List (String × String) → String → String → List (String × String)
  | [], k, v => [(k, v)]
  | p :: rest, k, v =>
      if p.1 == k then (k, v) :: rest else p :: dictInsert rest k v

/-- `get_env_value` from `env_config.py` (lines 57-96): the system
environment wins, then the `.env` dictionary when it is truthy (present
and nonempty), then the default; a found string is converted according to
the default's runtime type. -/
def get_env_value (key : String) (default : PyVal)
    (env_vars : Option (List (String × String)))
    (osEnv : String → Option String) : PyVal :=
  let value :=
    match osEnv key with
    | some v => some v
    | Option.none =>
        match env_vars with
        | some evs => if evs.isEmpty then Option.none else lookupDict evs key
        | Option.none => Option.none
  match value with
  | Option.none => default
  | some v => convertEnvValue default v

/-- Removal of one matching pair of surrounding double or single quotes
from a value, as in `load_env_file` (`env_config.py` lines 43-47). -/
def stripQuotesL (cs : List Char) : List Char :=
  let dq := Char.ofNat 34
  let sq := Char.ofNat 39
  if cs.head? == some dq && cs.getLast? == some dq then (cs.drop 1).dropLast
  else if cs.head? == some sq && cs.getLast? == some sq then (cs.drop 1).dropLast
  else cs

/-- String-level wrapper of `stripQuotesL`. -/
def stripQuotes (v : String) : String :=
  String.mk (stripQuotesL v.data)

/-- Per-line processing of `load_env_file` expressed as a partial parse:
strip the line; skip it when empty or a `#` comment or without `=`;
otherwise split at the first `=`, strip key and value and unquote the
value. -/
def parseEnvLine (line : String) : Option (String × String) :=
  match trimChars line.data with
  | [] => Option.none
  | c :: cs =>
      if c == '#' then Option.none
      else
        let l := c :: cs
        match l.dropWhile (fun ch => !(ch == '=')) with
        | [] => Option.none
        | _ :: v =>
            some (String.mk (trimChars (l.takeWhile (fun ch => !(ch == '=')))),
              stripQuotes (String.mk (trimChars v)))

/-- Line loop of `load_env_file`, accumulating the dictionary. -/
def loadEnvLines (acc : List (String × String)) : List String → List (String × String)
  | [] => acc
  | line :: rest =>
      match trimChars line.data with
      | [] => loadEnvLines acc rest
      | c :: cs =>
          if c == '#' then loadEnvLines acc rest
          else
            let l := c :: cs
            match l.dropWhile (fun ch => !(ch == '=')) with
            | [] => loadEnvLines acc rest
            | _ :: v =>
                loadEnvLines
                  (dictInsert acc
                    (String.mk (trimChars (l.takeWhile (fun ch => !(ch == '=')))))
                    (stripQuotes (String.mk (trimChars v))))
                  rest

/-- `load_env_file` from `env_config.py` (lines 13-54): a missing file
(`Option.none`) yields the empty dictionary, otherwise the line loop runs
over the file's lines. -/
def load_env_file : Option (List String) → List (String × String)
  | Option.none => []
  | some lines => loadEnvLines [] lines

/-- Integer carried by a `PyVal` (the workflow settings loaded with an
integer default are always integers). -/
def pyValInt : PyVal → Int
  | PyVal.int n => n
  | _ => 0

/-- Boolean carried by a `PyVal`. -/
def pyValBool : PyVal → Bool
  | PyVal.bool b => b
  | _ => false

/-- String carried by a `PyVal`. -/
def pyValStr : PyVal → String
  | PyVal.str s => s
  | _ => ""

/-- Workflow configuration dataclass of `env_config.py` (`WorkflowConfig`,
lines 112-122). -/
structure WorkflowConfig where
  basic_max_messages : Int
  advanced_max_messages : Int
  enable_parallel_processing : Bool
  enable_message_filtering : Bool
  enable_security_analysis : Bool
  enable_performance_optimization : Bool
  security_check_level : String
  performance_check_level : String
deriving DecidableEq, Repr

/-- `EnvironmentConfig._load_workflow_config` (`env_config.py` lines
217-228): every field read through `get_env_value` with its coded default. -/
def loadWorkflowConfig (env_vars : List (String × String))
    (osEnv : String → Option String) : WorkflowConfig :=
  { basic_max_messages :=
      pyValInt (get_env_value "BASIC_WORKFLOW_MAX_MESSAGES" (PyVal.int 15) (some env_vars) osEnv)
    advanced_max_messages :=
      pyValInt (get_env_value "ADVANCED_WORKFLOW_MAX_MESSAGES" (PyVal.int 25) (some env_vars) osEnv)
    enable_parallel_processing :=
      pyValBool (get_env_value "ENABLE_PARALLEL_PROCESSING" (PyVal.bool true) (some env_vars) osEnv)
    enable_message_filtering :=
      pyValBool (get_env_value "ENABLE_MESSAGE_FILTERING" (PyVal.bool true) (some env_vars) osEnv)
    enable_security_analysis :=
      pyValBool (get_env_value "ENABLE_SECURITY_ANALYSIS" (PyVal.bool true) (some env_vars) osEnv)
    enable_performance_optimization :=
      pyValBool (get_env_value "ENABLE_PERFORMANCE_OPTIMIZATION" (PyVal.bool true) (some env_vars) osEnv)
    security_check_level :=
      pyValStr (get_env_value "SECURITY_CHECK_LEVEL" (PyVal.str "standard") (some env_vars) osEnv)
    performance_check_level :=
      pyValStr (get_env_value "PERFORMANCE_CHECK_LEVEL" (PyVal.str "standard") (some env_vars) osEnv) }

/-- The configuration state assembled by `EnvironmentConfig.__init__`
(`env_config.py` lines 162-184), restricted to the fields the workflow
layer consumes; logging setup and directory creation are I/O side effects
outside the embedding.  The file system is an explicit map from paths to
file lines and the system environment an explicit map from keys to values. -/
structure EnvironmentConfig where
  env_file : String
  env_vars : List (String × String)
  workflow : WorkflowConfig
deriving DecidableEq, Repr

/-- Construction of an `EnvironmentConfig` from an env-file path. -/
def EnvironmentConfig.init (env_file : String)
    (fs : String → Option (List String))
    (osEnv : String → Option String) : EnvironmentConfig :=
  let env_vars := load_env_file (fs env_file)
  { env_file := env_file
    env_vars := env_vars
    workflow := loadWorkflowConfig env_vars osEnv }

/-- `get_config` from `env_config.py` (lines 356-373): the module-level
mutable variable `config` is threaded explicitly as the second component;
on a `none` state a fresh `EnvironmentConfig` is built and cached, on a
`some` state the cached instance is returned unchanged. -/
def get_config (env_file : String)
    (fs : String → Option (List String))
    (osEnv : String → Option String)
    (global_config : Option EnvironmentConfig) :
    EnvironmentConfig × Option EnvironmentConfig :=
  match global_config with
  | some c => (c, some c)
  | Option.none =>
      let c := EnvironmentConfig.init env_file fs osEnv
      (c, some c)

/-- `reload_config` from `env_config.py` (lines 376-388): always rebuilds
and overwrites the module-level variable. -/
def reload_config (env_file : String)
    (fs : String → Option (List String))
    (osEnv : String → Option String)
    (_global_config : Option EnvironmentConfig) :
    EnvironmentConfig × Option EnvironmentConfig :=
  let c := EnvironmentConfig.init env_file fs osEnv
  (c, some c)

/-- Configuration selection in `ProgrammingWorkflow.__init__`
(`autogen_programming_workflow.py` line 45): `self.config = config or
get_config()`; a passed configuration is used as is, otherwise the global
singleton is consulted (and possibly created). -/
def programmingWorkflowConfig (config : Option EnvironmentConfig)
    (fs : String → Option (List String))
    (osEnv : String → Option String)
    (global_config : Option EnvironmentConfig) :
    EnvironmentConfig × Option EnvironmentConfig :=
  match config with
  | some c => (c, global_config)
  | Option.none => get_config ".env" fs osEnv global_config

/-- A file system with no files, for concrete runs of `get_config`. -/
def emptyFS : String → Option (List String) := fun _ => Option.none

/-- A system environment with no variables set. -/
def emptyOSEnv : String → Option String := fun _ => Option.none

end EnvConfig

namespace Workflow

/-- Transcript message of the specification data model (§3): source node
id, content payload, sequence number and creation timestamp. -/
structure Message where
  source : String
  content : String
  sequence : Nat
  timestamp : Nat
deriving DecidableEq, Repr

/-- Character-list prefix test. -/
def isPrefixList : List Char → List Char → Bool
  | [], _ => true
  | _ :: _, [] => false
  | p :: ps, c :: cs => p == c && isPrefixList ps cs

/-- Character-list substring occurrence test. -/
def subOccurs (pat : List Char) : List Char → Bool
  | [] => isPrefixList pat []
  | c :: cs => isPrefixList pat (c :: cs) || subOccurs pat cs

/-- Python `pat in s`: substring containment. -/
def strContains (s pat : String) : Bool :=
  subOccurs pat.data s.data

/-- Modelled from the spec: the termination-condition tree of §3/§4.4
(the AutoGen condition classes combined by `|` are not part of the
repository source).  Leaves are `KeywordPresent` and `MessageCountAtLeast`;
composites are `AND` and `OR` over lists of children. -/
inductive TerminationCondition where
  | keywordPresent (keyword : String)
  | messageCountAtLeast (n : Int)
  | allOf (cs : List TerminationCondition)
  | anyOf (cs : List TerminationCondition)

mutual

/-- Modelled from the spec: `isSatisfied(condition, transcript)` of §4.4.
`KeywordPresent` holds when any message content contains the keyword as a
substring, `MessageCountAtLeast(n)` when the transcript length is at
least `n`; `AND` requires all children, `OR` any child. -/
def isSatisfied : TerminationCondition → List Message → Bool
  | TerminationCondition.keywordPresent k, t => t.any (fun m => strContains m.content k)
  | TerminationCondition.messageCountAtLeast n, t => decide (n ≤ (t.length : Int))
  | TerminationCondition.allOf cs, t => isSatisfiedAll cs t
  | TerminationCondition.anyOf cs, t => isSatisfiedAny cs t

/-- Conjunction of a list of termination conditions. -/
def isSatisfiedAll : List TerminationCondition → List Message → Bool
  | [], _ => true
  | c :: cs, t => isSatisfied c t && isSatisfiedAll cs t

/-- Disjunction of a list of termination conditions. -/
def isSatisfiedAny : List TerminationCondition → List Message → Bool
  | [], _ => false
  | c :: cs, t => isSatisfied c t || isSatisfiedAny cs t

end

/-- The `|` combinator on AutoGen termination conditions, modelled as the
binary `OR` composite of the spec (§9). -/
def condOr (a b : TerminationCondition) : TerminationCondition :=
  TerminationCondition.anyOf [a, b]

/-- `TextMentionTermination(text)` as the spec's `KeywordPresent` leaf. -/
def textMentionTermination (text : String) : TerminationCondition :=
  TerminationCondition.keywordPresent text

/-- `MaxMessageTermination(max_messages)` as the spec's
`MessageCountAtLeast` leaf. -/
def maxMessageTermination (max_messages : Int) : TerminationCondition :=
  TerminationCondition.messageCountAtLeast max_messages

/-- `ProgrammingWorkflow._create_termination_condition`
(`autogen_programming_workflow.py` lines 162-170): terminate on the
keyword OPTIMIZATION_COMPLETE or on reaching the configured basic
maximum message count. -/
def createTerminationCondition (cfg : EnvConfig.WorkflowConfig) : TerminationCondition :=
  condOr (textMentionTermination "OPTIMIZATION_COMPLETE")
    (maxMessageTermination cfg.basic_max_messages)

/-- Modelled from the spec: the scheduler's append/evaluate loop of
§4.2 steps b-c restricted to a single sequential stream of worker
results — each produced message is appended to the transcript and the
termination condition is re-evaluated after every single append; the run
stops at the first satisfied check or when no messages remain. -/
def runLoop (cond : TerminationCondition) (transcript : List Message) :
    List Message → List Message
  | [] => transcript
  | m :: pending =>
      let t := transcript ++ [m]
      if isSatisfied cond t then t else runLoop cond t pending

/-- Filter rule position selector (`PerSourceFilter.position`). -/
inductive FilterPosition where
  | first
  | last
deriving DecidableEq, Repr

/-- Modelled from the spec: a `FilterRule` of §3 — source selector,
FIRST/LAST position and a count (the `PerSourceFilter` consumed by
`MessageFilterAgent` in `autogen_advanced_programming_workflow.py`). -/
structure FilterRule where
  source : String
  position : FilterPosition
  count : Nat
deriving DecidableEq, Repr

/-- Modelled from the spec: evaluation of one filter rule (§4.3) — select
the messages of the matching source from the full transcript, then keep
the first `count` of them (chronological) for FIRST or the last `count`
for LAST. -/
def applyRule (ts : List Message) (r : FilterRule) : List Message :=
  let selected := ts.filter (fun m => m.source == r.source)
  match r.position with
  | FilterPosition.first => selected.take r.count
  | FilterPosition.last => selected.drop (selected.length - r.count)

/-- Modelled from the spec: `buildView(transcript, filterRuleSet)` of
§4.3 — per-rule results concatenated in the declaration order of the rule
set. -/
def buildView (ts : List Message) : List FilterRule → List Message
  | [] => []
  | r :: rs => applyRule ts r ++ buildView ts rs

/-- The filter rule set attached to the CodeOptimizer agent
(`autogen_advanced_programming_workflow.py` lines 132-142). -/
def codeOptimizerFilter : List FilterRule :=
  [ { source := "CodeWriter", position := FilterPosition.first, count := 1 }
  , { source := "CodeReviewer", position := FilterPosition.last, count := 1 }
  , { source := "SecurityAnalyzer", position := FilterPosition.last, count := 1 } ]

/-- The filter rule set attached to the FinalValidator agent
(`autogen_advanced_programming_workflow.py` lines 179-189). -/
def finalValidatorFilter : List FilterRule :=
  [ { source := "user", position := FilterPosition.first, count := 1 }
  , { source := "CodeOptimizer", position := FilterPosition.last, count := 1 }
  , { source := "TestGenerator", position := FilterPosition.last, count := 1 } ]

/-- Transcript export record of the specification (§6): ordered list of
records with sequence, source, content and timestamp. -/
structure TranscriptRecord where
  sequence : Nat
  source : String
  content : String
  timestamp : Nat
deriving DecidableEq, Repr

/-- Modelled from the spec: transcript export (§6) — the repository's
`_save_results` persists only task metadata, so the export format is
taken from the spec's record list. -/
def exportTranscript (t : List Message) : List TranscriptRecord :=
  t.map (fun m =>
    { sequence := m.sequence, source := m.source
      content := m.content, timestamp := m.timestamp })

/-- Modelled from the spec: transcript import — rebuild the ordered
message sequence from exported records. -/
def importTranscript (rs : List TranscriptRecord) : List Message :=
  rs.map (fun r =>
    { source := r.source, content := r.content
      sequence := r.sequence, timestamp := r.timestamp })

end Workflow

namespace TaskGraph

/-- Graph-construction failure kinds of the specification (§4.1/§7). -/
inductive GraphConstructionError where
  | cycle
  | danglingEdge
  | noEntryNode
deriving DecidableEq, Repr

/-- A validated directed graph: node ids and directed edges. -/
structure DiGraph where
  nodes : List String
  edges : List (String × String)
deriving DecidableEq, Repr

/-- Consecutive-edge test: `chainOk edges a l` holds when `a` followed by
the elements of `l` is an edge path. -/
def chainOk (edges : List (String × String)) : String → List String → Bool
  | _, [] => true
  | a, b :: rest => decide ((a, b) ∈ edges) && chainOk edges b rest

/-- Whether a nonempty vertex list is a closed edge cycle: consecutive
edges along the list and a closing edge from the last element back to the
head. -/
def isCycle (edges : List (String × String)) : List String → Bool
  | [] => false
  | a :: rest => chainOk edges a rest && decide ((List.getLastD rest a, a) ∈ edges)

/-- The edge set contains a cycle: some closed edge path exists. -/
def ContainsCycle (edges : List (String × String)) : Prop :=
  ∃ l, isCycle edges l = true

/-- Whether vertex `v` has a predecessor inside `remaining`. -/
def hasIncoming (edges : List (String × String)) (remaining : List String) (v : String) : Bool :=
  edges.any (fun e => e.2 == v && remaining.contains e.1)

/-- One round of source elimination: keep exactly the vertices that still
have a predecessor among the remaining vertices. -/
def kahnStep (edges : List (String × String)) (remaining : List String) : List String :=
  remaining.filter (fun v => hasIncoming edges remaining v)

/-- Fuelled source-elimination loop (topological-sort cycle detection, as
§4.1 prescribes): stop at a fixpoint or when the fuel runs out. -/
def kahnLoop (edges : List (String × String)) : Nat → List String → List String
  | 0, remaining => remaining
  | fuel + 1, remaining =>
      let r := kahnStep edges remaining
      if r.length = remaining.length then remaining
      else kahnLoop edges fuel r

/-- Every vertex mentioned by the graph: declared nodes and both edge
endpoints. -/
def allVerts (verts : List String) (edges : List (String × String)) : List String :=
  verts ++ edges.map Prod.fst ++ edges.map Prod.snd

/-- Executable cycle check: eliminate sources until a fixpoint; a cycle
exists exactly when vertices remain. -/
def hasCycleB (verts : List String) (edges : List (String × String)) : Bool :=
  !(kahnLoop edges (allVerts verts edges).length (allVerts verts edges)).isEmpty

/-- Whether some edge references a node id outside the declared set. -/
def hasDanglingEdge (verts : List String) (edges : List (String × String)) : Bool :=
  edges.any (fun e => !(verts.contains e.1) || !(verts.contains e.2))

/-- Entry nodes: declared nodes without any incoming edge. -/
def entryNodes (verts : List String) (edges : List (String × String)) : List String :=
  verts.filter (fun v => !(edges.any (fun e => e.2 == v)))

/-- Modelled from the spec: `build()` validation of §4.1 (the
`DiGraphBuilder` used by `_build_workflow_graph` is not part of the
repository source).  The three checks are applied in the order the spec
lists them: `CycleError` for a cyclic edge set, `DanglingEdgeError` for
an edge referencing an unknown node id, `NoEntryNodeError` when every
node has at least one predecessor; otherwise the immutable graph is
returned. -/
def build (verts : List String) (edges : List (String × String)) :
    Except GraphConstructionError DiGraph :=
  if hasCycleB verts edges then Except.error GraphConstructionError.cycle
  else if hasDanglingEdge verts edges then Except.error GraphConstructionError.danglingEdge
  else if (entryNodes verts edges).isEmpty then Except.error GraphConstructionError.noEntryNode
  else Except.ok { nodes := verts, edges := edges }

/-- The six nodes declared by `_build_workflow_graph`
(`autogen_advanced_programming_workflow.py` lines 193-223). -/
def advancedWorkflowNodes : List String :=
  ["CodeWriter", "CodeReviewer", "SecurityAnalyzer", "CodeOptimizer",
   "TestGenerator", "FinalValidator"]

/-- The six edges declared by `_build_workflow_graph`. -/
def advancedWorkflowEdges : List (String × String) :=
  [ ("CodeWriter", "CodeReviewer")
  , ("CodeWriter", "SecurityAnalyzer")
  , ("CodeReviewer", "CodeOptimizer")
  , ("SecurityAnalyzer", "CodeOptimizer")
  , ("CodeOptimizer", "TestGenerator")
  , ("TestGenerator", "FinalValidator") ]

/-- Descending iterate chain `[f^[k] x, ..., f^[1] x]`, used to exhibit a
cycle from a periodic predecessor walk. -/
def descChain (f : String → String) : Nat → String → List String
  | 0, _ => []
  | k + 1, x => f^[k + 1] x :: descChain f k x

end TaskGraph

/-! ## Theorems -/

/-- Claim C10: `get_workflow_config` is total on strings and never fails:
"advanced" yields the advanced configuration (max_messages 25, parallel
processing enabled) and every other string yields the basic configuration
(max_messages 15, parallel processing disabled). -/
theorem get_workflow_config_total :
    Config.get_workflow_config "advanced" = Config.ADVANCED_WORKFLOW_CONFIG
    ∧ Config.ADVANCED_WORKFLOW_CONFIG.max_messages = 25
    ∧ Config.ADVANCED_WORKFLOW_CONFIG.enable_parallel_processing = true
    ∧ (∀ s : String, s ≠ "advanced" →
        Config.get_workflow_config s = Config.BASIC_WORKFLOW_CONFIG)
    ∧ Config.BASIC_WORKFLOW_CONFIG.max_messages = 15
    ∧ Config.BASIC_WORKFLOW_CONFIG.enable_parallel_processing = false := by
  refine ⟨rfl, rfl, rfl, ?_, rfl, rfl⟩
  intro s hs
  simp [Config.get_workflow_config, hs]

/-- Witness for C10 at the concrete argument "basic". -/
theorem get_workflow_config_total_witness :
    Config.get_workflow_config "basic" = Config.BASIC_WORKFLOW_CONFIG :=
  get_workflow_config_total.2.2.2.1 "basic" (by decide)

/-- Claim C5: a worker invocation whose model call returns empty (or
absent) content fails with the EmptyResult worker-invocation error rather
than producing a message; on success the returned result's content equals
the model's response text. -/
theorem gemini_create_empty_and_success :
    ∀ t : Option String,
      ((t = Option.none ∨ t = some "") →
        Gemini.create t = Except.error Gemini.WorkerInvocationError.emptyResult)
      ∧ (∀ s : String, s ≠ "" → t = some s →
          ∃ r : Gemini.CreateResult, Gemini.create t = Except.ok r ∧ r.content = s) := by
  intro t
  constructor
  · rintro (rfl | rfl) <;> simp [Gemini.create]
  · rintro s hs rfl
    exact ⟨{ content := s, finish_reason := "stop", cached := false },
      by simp [Gemini.create, hs], rfl⟩

/-- Witness for C5 at the concrete responses `some ""` and `some "hello"`. -/
theorem gemini_create_empty_and_success_witness :
    Gemini.create (some "") = Except.error Gemini.WorkerInvocationError.emptyResult
    ∧ ∃ r : Gemini.CreateResult,
        Gemini.create (some "hello") = Except.ok r ∧ r.content = "hello" :=
  ⟨(gemini_create_empty_and_success (some "")).1 (Or.inr rfl),
   (gemini_create_empty_and_success (some "hello")).2 "hello" (by decide) rfl⟩

/-- Claim C7: exporting a transcript as the ordered record list
{sequence, source, content, timestamp} and importing it back reconstructs
a field-for-field identical ordered sequence, and conversely. -/
theorem transcript_export_import_round_trip :
    ∀ (t : List Workflow.Message) (rs : List Workflow.TranscriptRecord),
      Workflow.importTranscript (Workflow.exportTranscript t) = t
      ∧ Workflow.exportTranscript (Workflow.importTranscript rs) = rs := by
  intro t rs
  constructor
  · induction t with
    | nil => rfl
    | cons m t ih =>
        show _ :: Workflow.importTranscript (Workflow.exportTranscript t) = m :: t
        rw [ih]
  · induction rs with
    | nil => rfl
    | cons r rs ih =>
        show _ :: Workflow.exportTranscript (Workflow.importTranscript rs) = r :: rs
        rw [ih]

/-- Dropping all but the final element of a list leaves exactly its last
element, when one exists. -/
theorem drop_length_sub_one {α : Type} : ∀ l : List α, l.drop (l.length - 1) = l.getLast?.toList
  | [] => rfl
  | [_] => rfl
  | a :: b :: t => by
      have ih := drop_length_sub_one (b :: t)
      simp only [List.length_cons, Nat.add_sub_cancel] at ih ⊢
      rw [List.drop_succ_cons, ih, List.getLast?_cons_cons]

/-- `buildView` distributes over concatenation of rule sets. -/
theorem buildView_append (ts : List Workflow.Message) (l1 l2 : List Workflow.FilterRule) :
    Workflow.buildView ts (l1 ++ l2) = Workflow.buildView ts l1 ++ Workflow.buildView ts l2 := by
  induction l1 with
  | nil => simp [Workflow.buildView]
  | cons r rs ih => simp [Workflow.buildView, ih]

/-- A rule whose selector matches no message contributes the empty result. -/
theorem applyRule_empty_of_no_match (ts : List Workflow.Message) (r : Workflow.FilterRule)
    (h : ts.filter (fun m => m.source == r.source) = []) : Workflow.applyRule ts r = [] := by
  simp only [Workflow.applyRule]
  rw [h]
  cases r.position <;> simp

/-- Claim C2: `buildView` with the single rule {source=A, position=LAST,
count=1} returns exactly the chronologically most recent message from A
(empty when A produced none), its result depends only on the subsequence
of messages from A, and this is the rule shape attached to CodeOptimizer
for CodeReviewer and SecurityAnalyzer. -/
theorem buildView_last_one_rule :
    ∀ (ts : List Workflow.Message) (A : String),
      Workflow.buildView ts [{ source := A, position := Workflow.FilterPosition.last, count := 1 }] =
        ((ts.filter (fun m => m.source == A)).getLast?).toList
      ∧ (∀ ts2 : List Workflow.Message,
          ts.filter (fun m => m.source == A) = ts2.filter (fun m => m.source == A) →
          Workflow.buildView ts
              [{ source := A, position := Workflow.FilterPosition.last, count := 1 }] =
            Workflow.buildView ts2
              [{ source := A, position := Workflow.FilterPosition.last, count := 1 }])
      ∧ ({ source := "CodeReviewer", position := Workflow.FilterPosition.last, count := 1 } :
          Workflow.FilterRule) ∈ Workflow.codeOptimizerFilter
      ∧ ({ source := "SecurityAnalyzer", position := Workflow.FilterPosition.last, count := 1 } :
          Workflow.FilterRule) ∈ Workflow.codeOptimizerFilter := by
  intro ts A
  have hview : ∀ t : List Workflow.Message,
      Workflow.buildView t [{ source := A, position := Workflow.FilterPosition.last, count := 1 }] =
        (t.filter (fun m => m.source == A)).drop
          ((t.filter (fun m => m.source == A)).length - 1) := by
    intro t
    simp [Workflow.buildView, Workflow.applyRule]
  refine ⟨?_, ?_, ?_, ?_⟩
  · rw [hview, drop_length_sub_one]
  · intro ts2 h
    rw [hview, hview, h]
  · simp [Workflow.codeOptimizerFilter]
  · simp [Workflow.codeOptimizerFilter]

/-- Witness for C2: a transcript with an interleaved foreign message
yields the same LAST-1 view as the transcript with only the A messages. -/
theorem buildView_last_one_rule_witness :
    Workflow.buildView [⟨"A", "a1", 1, 1⟩, ⟨"B", "b1", 2, 2⟩, ⟨"A", "a2", 3, 3⟩]
        [{ source := "A", position := Workflow.FilterPosition.last, count := 1 }] =
      Workflow.buildView [⟨"A", "a1", 1, 1⟩, ⟨"A", "a2", 3, 3⟩]
        [{ source := "A", position := Workflow.FilterPosition.last, count := 1 }] :=
  (buildView_last_one_rule [⟨"A", "a1", 1, 1⟩, ⟨"B", "b1", 2, 2⟩, ⟨"A", "a2", 3, 3⟩] "A").2.1
    [⟨"A", "a1", 1, 1⟩, ⟨"A", "a2", 3, 3⟩] (by decide)

/-- Claim C3: `buildView` evaluates each rule independently (FIRST takes
the first `count`, LAST the last `count` of the selected source in
chronological order), concatenates per-rule results in declaration order
of the rule set — not global chronological order — and a selector
matching zero messages contributes an empty result without error. -/
theorem buildView_declaration_order :
    ∀ (ts : List Workflow.Message) (rules rules1 rules2 : List Workflow.FilterRule)
      (r : Workflow.FilterRule) (A : String) (c : Nat),
      Workflow.buildView ts rules = (rules.map (Workflow.applyRule ts)).flatten
      ∧ (ts.filter (fun m => m.source == r.source) = [] →
          Workflow.buildView ts (rules1 ++ r :: rules2) = Workflow.buildView ts (rules1 ++ rules2))
      ∧ (∀ ts2 : List Workflow.Message,
          ts.filter (fun m => m.source == r.source) = ts2.filter (fun m => m.source == r.source) →
          Workflow.applyRule ts r = Workflow.applyRule ts2 r)
      ∧ Workflow.applyRule ts { source := A, position := Workflow.FilterPosition.first, count := c } =
          (ts.filter (fun m => m.source == A)).take c
      ∧ Workflow.applyRule ts { source := A, position := Workflow.FilterPosition.last, count := c } =
          (((ts.filter (fun m => m.source == A)).reverse).take c).reverse
      ∧ Workflow.buildView
          [⟨"A", "alpha", 1, 1⟩, ⟨"B", "beta", 2, 2⟩]
          [{ source := "B", position := Workflow.FilterPosition.last, count := 1 },
           { source := "A", position := Workflow.FilterPosition.last, count := 1 }]
          = [⟨"B", "beta", 2, 2⟩, ⟨"A", "alpha", 1, 1⟩] := by
  intro ts rules rules1 rules2 r A c
  refine ⟨?_, ?_, ?_, ?_, ?_, by decide⟩
  · induction rules with
    | nil => rfl
    | cons q qs ih => simp [Workflow.buildView, ih]
  · intro h
    rw [buildView_append, buildView_append]
    have hdrop : Workflow.buildView ts (r :: rules2) = Workflow.buildView ts rules2 := by
      show Workflow.applyRule ts r ++ _ = _
      rw [applyRule_empty_of_no_match ts r h]
      simp
    rw [hdrop]
  · intro ts2 h
    simp only [Workflow.applyRule]
    rw [h]
  · simp [Workflow.applyRule]
  · simp only [Workflow.applyRule]
    rw [List.take_reverse, List.reverse_reverse]

/-- Witness for C3: removing a rule whose selector matches nothing leaves
the view unchanged on a concrete transcript. -/
theorem buildView_declaration_order_witness :
    Workflow.buildView [⟨"A", "alpha", 1, 1⟩]
        ([] ++ { source := "C", position := Workflow.FilterPosition.last, count := 1 } ::
          [{ source := "A", position := Workflow.FilterPosition.first, count := 1 }]) =
      Workflow.buildView [⟨"A", "alpha", 1, 1⟩]
        ([] ++ [{ source := "A", position := Workflow.FilterPosition.first, count := 1 }]) :=
  (buildView_declaration_order [⟨"A", "alpha", 1, 1⟩] []
      [] [{ source := "A", position := Workflow.FilterPosition.first, count := 1 }]
      { source := "C", position := Workflow.FilterPosition.last, count := 1 } "A" 1).2.1
    (by decide)

/-- Satisfaction of the keyword-or-count disjunction, unfolded. -/
theorem isSatisfied_keyword_or_count (k : String) (n : Int) (t : List Workflow.Message) :
    Workflow.isSatisfied
        (Workflow.TerminationCondition.anyOf
          [Workflow.TerminationCondition.keywordPresent k,
           Workflow.TerminationCondition.messageCountAtLeast n]) t =
      (t.any (fun x => Workflow.strContains x.content k) || decide (n ≤ (t.length : Int))) := by
  simp [Workflow.isSatisfied, Workflow.isSatisfiedAny]

/-- The sequential append/evaluate loop stops at the first message whose
content contains the keyword, provided the count threshold has not been
hit before. -/
theorem runLoop_stops_at_keyword (k : String) (n : Int) (m : Workflow.Message)
    (ys : List Workflow.Message) (hm : Workflow.strContains m.content k = true) :
    ∀ (xs pre : List Workflow.Message),
      (∀ x ∈ pre ++ xs, Workflow.strContains x.content k = false) →
      ((pre.length + xs.length : Int) < n) →
      Workflow.runLoop
          (Workflow.TerminationCondition.anyOf
            [Workflow.TerminationCondition.keywordPresent k,
             Workflow.TerminationCondition.messageCountAtLeast n])
          pre (xs ++ m :: ys) = pre ++ xs ++ [m]
  | [], pre => by
      intro _ _
      have hsat :
          Workflow.isSatisfied
            (Workflow.TerminationCondition.anyOf
              [Workflow.TerminationCondition.keywordPresent k,
               Workflow.TerminationCondition.messageCountAtLeast n]) (pre ++ [m]) = true := by
        rw [isSatisfied_keyword_or_count]
        simp [List.any_append, hm]
      simp [Workflow.runLoop, hsat]
  | x :: xs2, pre => by
      intro hall hlen
      have hx : Workflow.strContains x.content k = false :=
        hall x (List.mem_append.mpr (Or.inr (List.mem_cons_self x xs2)))
      have hpre : ∀ y ∈ pre, Workflow.strContains y.content k = false := fun y hy =>
        hall y (List.mem_append.mpr (Or.inl hy))
      have hany : (pre ++ [x]).any (fun y => Workflow.strContains y.content k) = false := by
        rw [List.any_eq_false]
        intro y hy
        rcases List.mem_append.mp hy with h2 | h2
        · simp [hpre y h2]
        · simp at h2
          subst h2
          simp [hx]
      have hlenx : ((x :: xs2).length : Int) = (xs2.length : Int) + 1 := by simp
      rw [hlenx] at hlen
      have hlen2 : ¬ (n ≤ ((pre ++ [x]).length : Int)) := by
        have h1 : ((pre ++ [x]).length : Int) = (pre.length : Int) + 1 := by simp
        rw [h1]
        omega
      have hsat :
          Workflow.isSatisfied
            (Workflow.TerminationCondition.anyOf
              [Workflow.TerminationCondition.keywordPresent k,
               Workflow.TerminationCondition.messageCountAtLeast n]) (pre ++ [x]) = false := by
        rw [isSatisfied_keyword_or_count, hany]
        simp
        omega
      have hall2 : ∀ y ∈ (pre ++ [x]) ++ xs2, Workflow.strContains y.content k = false := by
        intro y hy
        apply hall
        rcases List.mem_append.mp hy with h2 | h2
        · rcases List.mem_append.mp h2 with h3 | h3
          · exact List.mem_append.mpr (Or.inl h3)
          · simp at h3
            subst h3
            exact List.mem_append.mpr (Or.inr (List.mem_cons_self y xs2))
        · exact List.mem_append.mpr (Or.inr (List.mem_cons_of_mem x h2))
      have hlen3 : (((pre ++ [x]).length : Int) + xs2.length) < n := by
        have h1 : ((pre ++ [x]).length : Int) = (pre.length : Int) + 1 := by simp
        rw [h1]
        omega
      have ih := runLoop_stops_at_keyword k n m ys hm xs2 (pre ++ [x]) hall2 hlen3
      have hred : Workflow.runLoop
            (Workflow.TerminationCondition.anyOf
              [Workflow.TerminationCondition.keywordPresent k,
               Workflow.TerminationCondition.messageCountAtLeast n])
            pre ((x :: xs2) ++ m :: ys) =
          Workflow.runLoop
            (Workflow.TerminationCondition.anyOf
              [Workflow.TerminationCondition.keywordPresent k,
               Workflow.TerminationCondition.messageCountAtLeast n])
            (pre ++ [x]) (xs2 ++ m :: ys) := by
        simp only [List.cons_append, Workflow.runLoop, hsat]
        simp
      rw [hred, ih]
      simp

/-- Claim C1: for the termination condition OR(KeywordPresent k,
MessageCountAtLeast n) with n greater than 2, a run whose transcript
gains a message containing k terminates immediately after that message,
never reaching n messages; the basic workflow builds exactly this
condition with k = OPTIMIZATION_COMPLETE and n = basic_max_messages. -/
theorem or_termination_short_circuits :
    ∀ (k : String) (n : Int) (xs ys : List Workflow.Message) (m : Workflow.Message)
      (cfg : EnvConfig.WorkflowConfig),
      2 < n →
      (∀ x ∈ xs, Workflow.strContains x.content k = false) →
      Workflow.strContains m.content k = true →
      ((xs.length : Int) + 1 < n) →
      Workflow.runLoop
          (Workflow.TerminationCondition.anyOf
            [Workflow.TerminationCondition.keywordPresent k,
             Workflow.TerminationCondition.messageCountAtLeast n])
          [] (xs ++ m :: ys) = xs ++ [m]
      ∧ ((xs ++ [m]).length : Int) < n
      ∧ Workflow.createTerminationCondition cfg =
          Workflow.TerminationCondition.anyOf
            [Workflow.TerminationCondition.keywordPresent "OPTIMIZATION_COMPLETE",
             Workflow.TerminationCondition.messageCountAtLeast cfg.basic_max_messages] := by
  intro k n xs ys m cfg _ hall hm hlen
  refine ⟨?_, ?_, rfl⟩
  · have hl : (([] : List Workflow.Message).length : Int) + (xs.length : Int) < n := by
      simp
      omega
    have h := runLoop_stops_at_keyword k n m ys hm xs [] (by simpa using hall) hl
    simpa using h
  · have h1 : ((xs ++ [m]).length : Int) = (xs.length : Int) + 1 := by simp
    rw [h1]
    omega

/-- Witness for C1: a DONE keyword in the second message stops the run at
two messages, far below the count threshold of five. -/
theorem or_termination_short_circuits_witness :
    Workflow.runLoop
        (Workflow.TerminationCondition.anyOf
          [Workflow.TerminationCondition.keywordPresent "DONE",
           Workflow.TerminationCondition.messageCountAtLeast 5])
        [] ([⟨"A", "m1", 1, 1⟩] ++ ⟨"B", "ok DONE", 2, 2⟩ :: [⟨"C", "tail", 3, 3⟩]) =
      [⟨"A", "m1", 1, 1⟩] ++ [⟨"B", "ok DONE", 2, 2⟩]
    ∧ ((([(⟨"A", "m1", 1, 1⟩ : Workflow.Message)] ++
        [(⟨"B", "ok DONE", 2, 2⟩ : Workflow.Message)]).length : Int) < 5) :=
  have h := or_termination_short_circuits "DONE" 5 [⟨"A", "m1", 1, 1⟩] [⟨"C", "tail", 3, 3⟩]
    ⟨"B", "ok DONE", 2, 2⟩
    { basic_max_messages := 15, advanced_max_messages := 25
      enable_parallel_processing := true, enable_message_filtering := true
      enable_security_analysis := true, enable_performance_optimization := true
      security_check_level := "standard", performance_check_level := "standard" }
    (by decide) (by decide) (by decide) (by decide)
  ⟨h.1, h.2.1⟩

/-- Claim C8: `get_env_value` prefers the system environment, then the
.env dictionary, then the default; an int or float default whose
candidate does not parse is returned itself; a bool default converts to
true exactly on the lowercased values true/1/yes/on. -/
theorem get_env_value_precedence_and_conversion :
    ∀ (key : String) (d : EnvConfig.PyVal) (evs : List (String × String))
      (osEnv : String → Option String) (v : String),
      (osEnv key = some v →
        EnvConfig.get_env_value key d (some evs) osEnv = EnvConfig.convertEnvValue d v)
      ∧ (osEnv key = Option.none → EnvConfig.lookupDict evs key = some v →
        EnvConfig.get_env_value key d (some evs) osEnv = EnvConfig.convertEnvValue d v)
      ∧ (osEnv key = Option.none → EnvConfig.lookupDict evs key = Option.none →
        EnvConfig.get_env_value key d (some evs) osEnv = d)
      ∧ (osEnv key = Option.none →
        EnvConfig.get_env_value key d Option.none osEnv = d)
      ∧ (∀ n : Int, EnvConfig.parsePyInt v = Option.none →
        EnvConfig.convertEnvValue (EnvConfig.PyVal.int n) v = EnvConfig.PyVal.int n)
      ∧ (∀ lit : String, EnvConfig.isPyFloatLit v = false →
        EnvConfig.convertEnvValue (EnvConfig.PyVal.float lit) v = EnvConfig.PyVal.float lit)
      ∧ (∀ b : Bool, EnvConfig.convertEnvValue (EnvConfig.PyVal.bool b) v =
        EnvConfig.PyVal.bool (["true", "1", "yes", "on"].contains (EnvConfig.pyLower v))) := by
  intro key d evs osEnv v
  refine ⟨?_, ?_, ?_, ?_, ?_, ?_, ?_⟩
  · intro h
    simp [EnvConfig.get_env_value, h]
  · intro h1 h2
    have hne : evs.isEmpty = false := by
      cases evs with
      | nil => simp [EnvConfig.lookupDict] at h2
      | cons p ps => rfl
    simp [EnvConfig.get_env_value, h1, hne, h2]
  · intro h1 h2
    cases hev : evs.isEmpty <;> simp [EnvConfig.get_env_value, h1, hev, h2]
  · intro h
    simp [EnvConfig.get_env_value, h]
  · intro n h
    simp [EnvConfig.convertEnvValue, h]
  · intro lit h
    simp [EnvConfig.convertEnvValue, h]
  · intro b
    simp [EnvConfig.convertEnvValue]

/-- Witness for C8: with an empty system environment the .env value is
used, and the non-numeric candidate "abc" falls back to the int default. -/
theorem get_env_value_precedence_and_conversion_witness :
    EnvConfig.get_env_value "K" (EnvConfig.PyVal.int 7) (some [("K", "abc")]) EnvConfig.emptyOSEnv
      = EnvConfig.convertEnvValue (EnvConfig.PyVal.int 7) "abc"
    ∧ EnvConfig.convertEnvValue (EnvConfig.PyVal.int 7) "abc" = EnvConfig.PyVal.int 7 :=
  have h := get_env_value_precedence_and_conversion "K" (EnvConfig.PyVal.int 7) [("K", "abc")]
    EnvConfig.emptyOSEnv "abc"
  ⟨h.2.1 rfl (by decide), h.2.2.2.2.1 7 (by decide)⟩

/-- Unfolding of dictionary lookup over a cons cell. -/
theorem lookupDict_cons (p : String × String) (rest : List (String × String)) (k : String) :
    EnvConfig.lookupDict (p :: rest) k =
      if p.1 == k then some p.2 else EnvConfig.lookupDict rest k := by
  by_cases h : (p.1 == k) = true
  · simp [EnvConfig.lookupDict, List.find?_cons_of_pos _ h, h]
  · have h2 : (p.1 == k) = false := by simpa using h
    simp [EnvConfig.lookupDict, List.find?_cons_of_neg _ h, h2]

/-- Lookup after a dictionary insertion: the inserted key maps to the new
value, every other key is unaffected. -/
theorem dictInsert_lookup (m : List (String × String)) (a b k : String) :
    EnvConfig.lookupDict (EnvConfig.dictInsert m a b) k =
      if k == a then some b else EnvConfig.lookupDict m k := by
  induction m with
  | nil =>
      by_cases h : k = a
      · subst h
        simp [EnvConfig.dictInsert, lookupDict_cons]
      · have h1 : (k == a) = false := by simpa using h
        have h2 : (a == k) = false := by
          rw [beq_eq_false_iff_ne]
          exact fun he => h he.symm
        simp [EnvConfig.dictInsert, lookupDict_cons, h1, h2]
  | cons p rest ih =>
      by_cases hpa : (p.1 == a) = true
      · have hp1 : p.1 = a := beq_iff_eq.mp hpa
        simp only [EnvConfig.dictInsert, hpa, if_true]
        rw [lookupDict_cons, lookupDict_cons]
        by_cases hk : k = a
        · subst hk
          simp
        · have h1 : (k == a) = false := by simpa using hk
          have h2 : (a == k) = false := by
            rw [beq_eq_false_iff_ne]
            exact fun he => hk he.symm
          have h3 : (p.1 == k) = false := by rw [hp1]; exact h2
          simp [h1, h2, h3]
      · have hpa2 : (p.1 == a) = false := by simpa using hpa
        simp only [EnvConfig.dictInsert, hpa2, Bool.false_eq_true, if_false]
        rw [lookupDict_cons, lookupDict_cons]
        by_cases hp1k : (p.1 == k) = true
        · have hka : (k == a) = false := by
            rw [beq_eq_false_iff_ne]
            intro he
            rw [beq_eq_false_iff_ne] at hpa2
            exact hpa2 ((beq_iff_eq.mp hp1k).trans he)
          simp [hp1k, hka]
        · have hp1k2 : (p.1 == k) = false := by simpa using hp1k
          simp [hp1k2, ih]

/-- One step of the `load_env_file` line loop agrees with the per-line
parse: a qualifying line inserts its key/value pair, any other line is
skipped. -/
theorem loadEnvLines_step (acc : List (String × String)) (line : String) (rest : List String) :
    EnvConfig.loadEnvLines acc (line :: rest) =
      EnvConfig.loadEnvLines
        (match EnvConfig.parseEnvLine line with
         | some kv => EnvConfig.dictInsert acc kv.1 kv.2
         | Option.none => acc) rest := by
  simp only [EnvConfig.loadEnvLines, EnvConfig.parseEnvLine]
  cases htr : EnvConfig.trimChars line.data with
  | nil => simp
  | cons c cs =>
      by_cases hc : (c == '#') = true
      · simp [hc]
      · have hc2 : (c == '#') = false := by simpa using hc
        simp only [hc2, Bool.false_eq_true, if_false]
        cases hdw : (c :: cs).dropWhile (fun ch => !(ch == '=')) with
        | nil => simp [hdw]
        | cons d v => simp [hdw]

/-- Lookup in the dictionary built by the line loop: the value of the
last qualifying line with the given key, falling back to the initial
accumulator. -/
theorem loadEnvLines_lookup :
    ∀ (lines : List String) (acc : List (String × String)) (k : String),
      EnvConfig.lookupDict (EnvConfig.loadEnvLines acc lines) k =
        match ((lines.filterMap EnvConfig.parseEnvLine).filter (fun p => p.1 == k)).getLast? with
        | some p => some p.2
        | Option.none => EnvConfig.lookupDict acc k
  | [], acc, k => by simp [EnvConfig.loadEnvLines]
  | line :: rest, acc, k => by
      rw [loadEnvLines_step]
      cases hp : EnvConfig.parseEnvLine line with
      | none =>
          rw [loadEnvLines_lookup rest acc k]
          simp [List.filterMap_cons, hp]
      | some kv =>
          rw [loadEnvLines_lookup rest (EnvConfig.dictInsert acc kv.1 kv.2) k]
          simp only [List.filterMap_cons, hp]
          by_cases hkv : (kv.1 == k) = true
          · simp only [List.filter_cons, hkv, if_true]
            cases hl : ((rest.filterMap EnvConfig.parseEnvLine).filter
                (fun p => p.1 == k)).getLast? with
            | none =>
                have hnil := List.getLast?_eq_none_iff.mp hl
                have hkk : (k == kv.1) = true := by
                  rw [beq_iff_eq]
                  exact (beq_iff_eq.mp hkv).symm
                simp [hl, hnil, dictInsert_lookup, hkk]
            | some q =>
                have hcons : ((kv :: (rest.filterMap EnvConfig.parseEnvLine).filter
                    (fun p => p.1 == k))).getLast? = some q := by
                  rw [List.getLast?_cons, hl]
                  simp
                simp [hl, hcons]
          · have hkv2 : (kv.1 == k) = false := by simpa using hkv
            simp only [List.filter_cons, hkv2, Bool.false_eq_true, if_false]
            cases hl : ((rest.filterMap EnvConfig.parseEnvLine).filter
                (fun p => p.1 == k)).getLast? with
            | none =>
                have hne : (k == kv.1) = false := by
                  rw [beq_eq_false_iff_ne]
                  rw [beq_eq_false_iff_ne] at hkv2
                  exact fun he => hkv2 he.symm
                simp [hl, dictInsert_lookup, hne]
            | some q => simp [hl]

/-- Claim C9: `load_env_file` returns the empty mapping for a missing
file; otherwise its mapping sends each key to the value of the last line
that is nonempty after stripping, is no `#` comment and contains `=`,
split at the first `=` with both sides stripped and one matching pair of
surrounding quotes removed from the value — and to nothing when no such
line exists. -/
theorem load_env_file_characterization :
    ∀ (lines : List String) (k : String),
      EnvConfig.load_env_file Option.none = []
      ∧ EnvConfig.lookupDict (EnvConfig.load_env_file (some lines)) k =
          (((lines.filterMap EnvConfig.parseEnvLine).filter (fun p => p.1 == k)).getLast?).map
            Prod.snd := by
  intro lines k
  refine ⟨rfl, ?_⟩
  show EnvConfig.lookupDict (EnvConfig.loadEnvLines [] lines) k = _
  rw [loadEnvLines_lookup lines [] k]
  cases hl : ((lines.filterMap EnvConfig.parseEnvLine).filter (fun p => p.1 == k)).getLast? with
  | none => simp [hl, EnvConfig.lookupDict]
  | some q => simp [hl]

/-- Counterexample for C6: `get_config` both writes the module-level
variable (the returned state is no longer `none`) and reads it (a second
call with a different env-file argument answers with the configuration
cached by the first call instead of a freshly built one), so the run
configuration is hidden process-global mutable state. -/
theorem get_config_hidden_global_state_counterexample :
    (EnvConfig.get_config "a.env" EnvConfig.emptyFS EnvConfig.emptyOSEnv Option.none).2
      ≠ Option.none
    ∧ (EnvConfig.get_config "b.env" EnvConfig.emptyFS EnvConfig.emptyOSEnv
          (EnvConfig.get_config "a.env" EnvConfig.emptyFS EnvConfig.emptyOSEnv Option.none).2).1
      ≠ (EnvConfig.get_config "b.env" EnvConfig.emptyFS EnvConfig.emptyOSEnv Option.none).1 := by
  constructor
  · decide
  · decide

/-- Claim C6 (amended): the source keeps a process-global mutable
configuration singleton — `get_config` builds the configuration on first
use, caches it in the module-level variable and afterwards returns the
cached instance unchanged (regardless of its argument), `reload_config`
always rebuilds and overwrites the cache, and a configuration passed
explicitly to `ProgrammingWorkflow.__init__` is used as given without
touching the global variable. -/
theorem get_config_caching_semantics :
    ∀ (env_file : String) (fs : String → Option (List String))
      (osEnv : String → Option String),
      EnvConfig.get_config env_file fs osEnv Option.none =
        (EnvConfig.EnvironmentConfig.init env_file fs osEnv,
         some (EnvConfig.EnvironmentConfig.init env_file fs osEnv))
      ∧ (∀ c : EnvConfig.EnvironmentConfig,
          EnvConfig.get_config env_file fs osEnv (some c) = (c, some c))
      ∧ (∀ (c : EnvConfig.EnvironmentConfig) (g : Option EnvConfig.EnvironmentConfig),
          EnvConfig.programmingWorkflowConfig (some c) fs osEnv g = (c, g))
      ∧ (∀ g : Option EnvConfig.EnvironmentConfig,
          EnvConfig.reload_config env_file fs osEnv g =
            (EnvConfig.EnvironmentConfig.init env_file fs osEnv,
             some (EnvConfig.EnvironmentConfig.init env_file fs osEnv))) := by
  intro env_file fs osEnv
  exact ⟨rfl, fun c => rfl, fun c g => rfl, fun g => rfl⟩

/-- Every element of an edge path has a predecessor on the path. -/
theorem chainPred (edges : List (String × String)) :
    ∀ (rest : List String) (a v : String),
      TaskGraph.chainOk edges a rest = true → v ∈ rest → ∃ u ∈ a :: rest, (u, v) ∈ edges
  | [], a, v => by
      intro _ hv
      simp at hv
  | b :: rest2, a, v => by
      intro hchain hv
      simp only [TaskGraph.chainOk, Bool.and_eq_true, decide_eq_true_eq] at hchain
      rcases List.mem_cons.mp hv with h | hv2
      · subst h
        exact ⟨a, List.mem_cons_self a _, hchain.1⟩
      · obtain ⟨u, hu, hedge⟩ := chainPred edges rest2 b v hchain.2 hv2
        exact ⟨u, List.mem_cons_of_mem a hu, hedge⟩

/-- Every vertex on a closed edge cycle has a predecessor on the cycle. -/
theorem cyclePred (edges : List (String × String)) (l : List String) (v : String)
    (hc : TaskGraph.isCycle edges l = true) (hv : v ∈ l) : ∃ u ∈ l, (u, v) ∈ edges := by
  cases l with
  | nil => simp at hv
  | cons a rest =>
      simp only [TaskGraph.isCycle, Bool.and_eq_true, decide_eq_true_eq] at hc
      obtain ⟨hchain, hclose⟩ := hc
      rcases List.mem_cons.mp hv with h | hv2
      · subst h
        exact ⟨List.getLastD rest v, List.getLastD_mem_cons rest v, hclose⟩
      · exact chainPred edges rest a v hchain hv2

/-- One source-elimination round never removes a vertex lying on a cycle
whose vertices are all still remaining. -/
theorem kahnStep_keeps_cycle (edges : List (String × String)) (l remaining : List String)
    (hc : TaskGraph.isCycle edges l = true) (hsub : ∀ v ∈ l, v ∈ remaining) :
    ∀ v ∈ l, v ∈ TaskGraph.kahnStep edges remaining := by
  intro v hv
  obtain ⟨u, hu, hedge⟩ := cyclePred edges l v hc hv
  apply List.mem_filter.mpr
  refine ⟨hsub v hv, ?_⟩
  apply List.any_eq_true.mpr
  refine ⟨(u, v), hedge, ?_⟩
  simp [hsub u hu]

/-- The whole elimination loop keeps every vertex of a cycle. -/
theorem kahnLoop_keeps_cycle (edges : List (String × String)) (l : List String)
    (hc : TaskGraph.isCycle edges l = true) :
    ∀ (fuel : Nat) (remaining : List String), (∀ v ∈ l, v ∈ remaining) →
      ∀ v ∈ l, v ∈ TaskGraph.kahnLoop edges fuel remaining
  | 0, remaining => fun hsub => hsub
  | fuel + 1, remaining => by
      intro hsub v hv
      simp only [TaskGraph.kahnLoop]
      by_cases h : (TaskGraph.kahnStep edges remaining).length = remaining.length
      · simp only [h, if_true]
        exact hsub v hv
      · simp only [h, if_false]
        exact kahnLoop_keeps_cycle edges l hc fuel (TaskGraph.kahnStep edges remaining)
          (kahnStep_keeps_cycle edges l remaining hc hsub) v hv

/-- With fuel at least the number of remaining vertices the elimination
loop ends in a fixpoint of one elimination round. -/
theorem kahnLoop_fixpoint (edges : List (String × String)) :
    ∀ (fuel : Nat) (remaining : List String), remaining.length ≤ fuel →
      TaskGraph.kahnStep edges (TaskGraph.kahnLoop edges fuel remaining) =
        TaskGraph.kahnLoop edges fuel remaining
  | 0, remaining => by
      intro h
      have hnil : remaining = [] := List.eq_nil_of_length_eq_zero (Nat.le_zero.mp h)
      subst hnil
      rfl
  | fuel + 1, remaining => by
      intro h
      simp only [TaskGraph.kahnLoop]
      by_cases heq : (TaskGraph.kahnStep edges remaining).length = remaining.length
      · simp only [heq, if_true]
        exact List.Sublist.eq_of_length (List.filter_sublist remaining) heq
      · simp only [heq, if_false]
        apply kahnLoop_fixpoint edges fuel (TaskGraph.kahnStep edges remaining)
        have hle : (TaskGraph.kahnStep edges remaining).length ≤ remaining.length :=
          (List.filter_sublist remaining).length_le
        omega

/-- Iterates of a function mapping a set into itself stay in the set. -/
theorem iterate_mem_of_closed (r : List String) (f : String → String)
    (hf : ∀ v ∈ r, f v ∈ r) : ∀ (k : Nat) (x : String), x ∈ r → f^[k] x ∈ r
  | 0, _ => fun hx => hx
  | k + 1, x => fun hx => by
      rw [Function.iterate_succ_apply']
      exact hf _ (iterate_mem_of_closed r f hf k x hx)

/-- The descending iterate chain is an edge path, when the function picks
an edge predecessor inside `r`. -/
theorem descChain_chainOk (edges : List (String × String)) (r : List String)
    (f : String → String) (hf : ∀ v ∈ r, f v ∈ r ∧ (f v, v) ∈ edges) :
    ∀ (k : Nat) (x : String), x ∈ r →
      TaskGraph.chainOk edges (f^[k + 1] x) (TaskGraph.descChain f k x) = true
  | 0, _ => fun _ => rfl
  | k + 1, x => fun hx => by
      show TaskGraph.chainOk edges (f^[k + 1 + 1] x)
        (f^[k + 1] x :: TaskGraph.descChain f k x) = true
      simp only [TaskGraph.chainOk, Bool.and_eq_true, decide_eq_true_eq]
      constructor
      · have hmem : f^[k + 1] x ∈ r :=
          iterate_mem_of_closed r f (fun v hv => (hf v hv).1) (k + 1) x hx
        have hedge := (hf _ hmem).2
        rwa [← Function.iterate_succ_apply' f (k + 1) x] at hedge
      · exact descChain_chainOk edges r f hf k x hx

/-- Last element of a nonempty descending iterate chain. -/
theorem descChain_getLastD (f : String → String) :
    ∀ (k : Nat) (x d : String), 1 ≤ k → (TaskGraph.descChain f k x).getLastD d = f x
  | 0, _, _ => fun h => absurd h (by omega)
  | 1, x, d => fun _ => by
      show ([f^[1] x].getLastD d) = f x
      simp
  | k + 2, x, d => fun _ => by
      show ((f^[k + 2] x :: TaskGraph.descChain f (k + 1) x).getLastD d) = f x
      rw [List.getLastD_cons]
      exact descChain_getLastD f (k + 1) x _ (by omega)

/-- A vertex returning to itself after finitely many predecessor picks
yields a closed edge cycle. -/
theorem exists_cycle_of_pick (edges : List (String × String)) (r : List String)
    (f : String → String) (hf : ∀ v ∈ r, f v ∈ r ∧ (f v, v) ∈ edges)
    (u : String) (hu : u ∈ r) (m : Nat) (hm : 1 ≤ m) (hfix : f^[m] u = u) :
    TaskGraph.ContainsCycle edges := by
  refine ⟨TaskGraph.descChain f m u, ?_⟩
  cases m with
  | zero => omega
  | succ k =>
      show TaskGraph.isCycle edges (f^[k + 1] u :: TaskGraph.descChain f k u) = true
      simp only [TaskGraph.isCycle, Bool.and_eq_true, decide_eq_true_eq]
      refine ⟨descChain_chainOk edges r f hf k u hu, ?_⟩
      cases k with
      | zero =>
          show ((List.getLastD [] (f^[1] u)), f^[1] u) ∈ edges
          have h1 : f^[1] u = u := hfix
          have h2 : f u = u := by simpa using h1
          simp only [List.getLastD, h1]
          have hedge := (hf u hu).2
          rwa [h2] at hedge
      | succ k2 =>
          rw [descChain_getLastD f (k2 + 1) u _ (by omega)]
          rw [hfix]
          exact (hf u hu).2

/-- A nonempty fixpoint of the source-elimination round contains a cycle:
every remaining vertex keeps a remaining predecessor, and iterating the
predecessor pick pigeonholes into a repetition. -/
theorem cycle_of_stuck (edges : List (String × String)) (r : List String)
    (hstuck : TaskGraph.kahnStep edges r = r) (hne : r ≠ []) :
    TaskGraph.ContainsCycle edges := by
  have hkeep : ∀ v ∈ r, TaskGraph.hasIncoming edges r v = true := by
    intro v hv
    exact List.filter_eq_self.mp hstuck v hv
  have hpred : ∀ v ∈ r, ∃ u, u ∈ r ∧ (u, v) ∈ edges := by
    intro v hv
    obtain ⟨e, he, hcond⟩ := List.any_eq_true.mp (hkeep v hv)
    simp only [Bool.and_eq_true] at hcond
    refine ⟨e.1, by simpa using hcond.2, ?_⟩
    have h2 : e.2 = v := beq_iff_eq.mp hcond.1
    have h3 : e = (e.1, v) := by
      rw [← h2]
    rw [h3] at he
    exact he
  classical
  have hchoice : ∀ v, ∃ u, v ∈ r → u ∈ r ∧ (u, v) ∈ edges := by
    intro v
    by_cases hv : v ∈ r
    · obtain ⟨u, hu1, hu2⟩ := hpred v hv
      exact ⟨u, fun _ => ⟨hu1, hu2⟩⟩
    · exact ⟨v, fun h => absurd h hv⟩
  choose f hf using hchoice
  obtain ⟨v0, hv0⟩ := List.exists_mem_of_ne_nil r hne
  have hmaps : ∀ i ∈ Finset.range (r.toFinset.card + 1), f^[i] v0 ∈ r.toFinset := by
    intro i _
    rw [List.mem_toFinset]
    exact iterate_mem_of_closed r f (fun v hv => (hf v hv).1) i v0 hv0
  have hcard : r.toFinset.card < (Finset.range (r.toFinset.card + 1)).card := by
    simp
  obtain ⟨i, _, j, _, hij, heq⟩ := Finset.exists_ne_map_eq_of_card_lt_of_maps_to hcard hmaps
  have hmain : ∀ (i2 j2 : Nat), i2 < j2 → f^[i2] v0 = f^[j2] v0 →
      TaskGraph.ContainsCycle edges := by
    intro i2 j2 hlt he
    have hu : f^[i2] v0 ∈ r := iterate_mem_of_closed r f (fun v hv => (hf v hv).1) i2 v0 hv0
    have hfix : f^[j2 - i2] (f^[i2] v0) = f^[i2] v0 := by
      rw [← Function.iterate_add_apply]
      have hsum : j2 - i2 + i2 = j2 := by omega
      rw [hsum, ← he]
    exact exists_cycle_of_pick edges r f hf (f^[i2] v0) hu (j2 - i2) (by omega) hfix
  rcases Nat.lt_or_ge i j with hlt | hge
  · exact hmain i j hlt heq
  · have hlt2 : j < i := by omega
    exact hmain j i hlt2 heq.symm

/-- Correctness of the executable cycle check: it answers true exactly
when the edge set contains a closed edge cycle. -/
theorem hasCycleB_iff (verts : List String) (edges : List (String × String)) :
    TaskGraph.hasCycleB verts edges = true ↔ TaskGraph.ContainsCycle edges := by
  constructor
  · intro h
    have hfix := kahnLoop_fixpoint edges (TaskGraph.allVerts verts edges).length
      (TaskGraph.allVerts verts edges) (le_refl _)
    have hne : TaskGraph.kahnLoop edges (TaskGraph.allVerts verts edges).length
        (TaskGraph.allVerts verts edges) ≠ [] := by
      intro hnil
      rw [TaskGraph.hasCycleB, hnil] at h
      simp at h
    exact cycle_of_stuck edges _ hfix hne
  · rintro ⟨l, hl⟩
    have hsub : ∀ v ∈ l, v ∈ TaskGraph.allVerts verts edges := by
      intro v hv
      obtain ⟨u, _, hedge⟩ := cyclePred edges l v hl hv
      unfold TaskGraph.allVerts
      refine List.mem_append.mpr (Or.inr ?_)
      exact List.mem_map.mpr ⟨(u, v), hedge, rfl⟩
    have hnonempty : l ≠ [] := by
      intro hnil
      rw [hnil] at hl
      simp [TaskGraph.isCycle] at hl
    obtain ⟨v, hv⟩ := List.exists_mem_of_ne_nil l hnonempty
    have hkeep := kahnLoop_keeps_cycle edges l hl (TaskGraph.allVerts verts edges).length
      (TaskGraph.allVerts verts edges) hsub v hv
    have hres : TaskGraph.kahnLoop edges (TaskGraph.allVerts verts edges).length
        (TaskGraph.allVerts verts edges) ≠ [] := by
      intro hnil
      rw [hnil] at hkeep
      simp at hkeep
    rw [TaskGraph.hasCycleB]
    cases hE : (TaskGraph.kahnLoop edges (TaskGraph.allVerts verts edges).length
        (TaskGraph.allVerts verts edges)).isEmpty
    · rfl
    · exact absurd (List.isEmpty_iff.mp hE) hres

/-- Claim C4: `build()` fails with CycleError exactly when the edge set
contains a cycle; once the cycle check passes it fails with
DanglingEdgeError exactly when an edge references an unknown node id;
once both pass it fails with NoEntryNodeError exactly when every node has
at least one predecessor (the three checks run in the order the spec
lists them); and the advanced workflow's six nodes and six edges build
successfully with CodeWriter the unique entry node. -/
theorem build_validates_graph :
    ∀ (verts : List String) (edges : List (String × String)),
      (TaskGraph.build verts edges = Except.error TaskGraph.GraphConstructionError.cycle
        ↔ TaskGraph.ContainsCycle edges)
      ∧ (¬ TaskGraph.ContainsCycle edges →
          (TaskGraph.build verts edges =
              Except.error TaskGraph.GraphConstructionError.danglingEdge
            ↔ TaskGraph.hasDanglingEdge verts edges = true))
      ∧ (¬ TaskGraph.ContainsCycle edges → TaskGraph.hasDanglingEdge verts edges = false →
          (TaskGraph.build verts edges =
              Except.error TaskGraph.GraphConstructionError.noEntryNode
            ↔ ∀ v ∈ verts, ∃ e ∈ edges, e.2 = v))
      ∧ TaskGraph.build TaskGraph.advancedWorkflowNodes TaskGraph.advancedWorkflowEdges =
          Except.ok { nodes := TaskGraph.advancedWorkflowNodes
                      edges := TaskGraph.advancedWorkflowEdges }
      ∧ TaskGraph.entryNodes TaskGraph.advancedWorkflowNodes TaskGraph.advancedWorkflowEdges =
          ["CodeWriter"] := by
  intro verts edges
  have hnoCycle : ∀ h : ¬ TaskGraph.ContainsCycle edges,
      TaskGraph.hasCycleB verts edges = false := by
    intro h
    cases hb : TaskGraph.hasCycleB verts edges with
    | false => rfl
    | true => exact absurd ((hasCycleB_iff verts edges).mp hb) h
  refine ⟨?_, ?_, ?_, by rfl, by decide⟩
  · constructor
    · intro h
      by_cases hb : TaskGraph.hasCycleB verts edges = true
      · exact (hasCycleB_iff verts edges).mp hb
      · exfalso
        have hb2 : TaskGraph.hasCycleB verts edges = false := by simpa using hb
        rw [TaskGraph.build, hb2] at h
        simp only [Bool.false_eq_true, if_false] at h
        by_cases hd : TaskGraph.hasDanglingEdge verts edges = true
        · simp [hd] at h
        · have hd2 : TaskGraph.hasDanglingEdge verts edges = false := by simpa using hd
          simp only [hd2, Bool.false_eq_true, if_false] at h
          by_cases he : (TaskGraph.entryNodes verts edges).isEmpty = true
          · simp [he] at h
          · have he2 : (TaskGraph.entryNodes verts edges).isEmpty = false := by simpa using he
            simp [he2] at h
    · intro hc
      have hb := (hasCycleB_iff verts edges).mpr hc
      rw [TaskGraph.build, hb]
      simp
  · intro hnc
    have hb := hnoCycle hnc
    constructor
    · intro h
      by_cases hd : TaskGraph.hasDanglingEdge verts edges = true
      · exact hd
      · exfalso
        have hd2 : TaskGraph.hasDanglingEdge verts edges = false := by simpa using hd
        rw [TaskGraph.build, hb, hd2] at h
        simp only [Bool.false_eq_true, if_false] at h
        by_cases he : (TaskGraph.entryNodes verts edges).isEmpty = true
        · simp [he] at h
        · have he2 : (TaskGraph.entryNodes verts edges).isEmpty = false := by simpa using he
          simp [he2] at h
    · intro hd
      rw [TaskGraph.build, hb, hd]
      simp
  · intro hnc hd
    have hb := hnoCycle hnc
    constructor
    · intro h
      by_cases he : (TaskGraph.entryNodes verts edges).isEmpty = true
      · have hnil : TaskGraph.entryNodes verts edges = [] := List.isEmpty_iff.mp he
        intro v hv
        have hpred := List.filter_eq_nil_iff.mp hnil v hv
        simp only [Bool.not_eq_true'] at hpred
        have hany : edges.any (fun e => e.2 == v) = true := by
          cases hA : edges.any (fun e => e.2 == v) with
          | true => rfl
          | false => exact absurd hA (by simpa using hpred)
        obtain ⟨e, he2, hev⟩ := List.any_eq_true.mp hany
        exact ⟨e, he2, beq_iff_eq.mp hev⟩
      · exfalso
        have he2 : (TaskGraph.entryNodes verts edges).isEmpty = false := by simpa using he
        rw [TaskGraph.build, hb, hd, he2] at h
        simp at h
    · intro hall
      have hnil : TaskGraph.entryNodes verts edges = [] := by
        apply List.filter_eq_nil_iff.mpr
        intro v hv
        obtain ⟨e, hee, hev⟩ := hall v hv
        simp only [Bool.not_eq_true', Bool.not_eq_false]
        exact List.any_eq_true.mpr ⟨e, hee, by simp [hev]⟩
      have he : (TaskGraph.entryNodes verts edges).isEmpty = true := by
        rw [hnil]
        rfl
      rw [TaskGraph.build, hb, hd, he]
      simp

/-- Witness for C4: a self-loop builds to CycleError, and an acyclic edge
to an undeclared node builds to DanglingEdgeError. -/
theorem build_validates_graph_witness :
    TaskGraph.build ["A"] [("A", "A")] = Except.error TaskGraph.GraphConstructionError.cycle
    ∧ TaskGraph.build ["A"] [("A", "B")] =
        Except.error TaskGraph.GraphConstructionError.danglingEdge :=
  ⟨(build_validates_graph ["A"] [("A", "A")]).1.mpr ⟨["A"], by decide⟩,
   ((build_validates_graph ["A"] [("A", "B")]).2.1
      (fun hc => absurd ((hasCycleB_iff ["A"] [("A", "B")]).mpr hc) (by decide))).mpr
     (by decide)⟩
